import Mathlib

/-!
Verification development for `tradingView.py` (TradingView WebSocket price
client).  The Python source is shallowly embedded here:

* JSON values are modelled by the mutual inductive `Json`/`JsonList`/`JsonObj`
  (object member order preserved, as Python dict insertion order is).  JSON
  numbers are modelled as integers: the client never serialises fractional
  numbers, and no verified claim depends on float arithmetic.
* `json.dumps(..., separators=(",", ":"))` is modelled by `dumpsJ`; the model
  escapes `"` and `\` inside strings (the escapes the serialiser can emit for
  the data constructible in this model).
* `json.loads` is modelled by `loads`, a fuel-indexed recursive-descent parser
  over the same value space (strict: rejects trailing data and leading zeros,
  like Python's json module; whitespace skipping and float/unicode escapes are
  outside the model since no claim exercises them).
* Python `str.split("~m~")` is modelled by `pySplit`, `str.startswith("~h~")`
  by `startsHsep`, `str.strip() == ""` by an all-whitespace test.
* The `on_message` callback is modelled as a pure function from the raw
  transport text to a record of its observable effects (frames sent, price
  event logged, uncaught Python exception).  The source callback sends
  nothing, so the `sent` component is always empty.
* The connection loop `run` is modelled by `runTrace`, which folds a finite
  script of environment outcomes (connection failure, or open with a given
  symbol-search result) through the source's backoff/retry structure.
-/

/-! ### Decimal digits, `str(int)` and integer serialisation -/

/-- Character for a decimal digit value. -/
def digitChar (d : Nat) : Char := Char.ofNat (48 + d)

/-- Fuel-indexed most-significant-first decimal digits of a natural number. -/
def natCharsAux : Nat → Nat → List Char
  | 0, _ => []
  | fuel+1, n => if n < 10 then [digitChar n] else natCharsAux fuel (n / 10) ++ [digitChar (n % 10)]

/-- Decimal digits of a natural number, as Python's `str(n)` prints them
(no leading zeros). -/
def natChars (n : Nat) : List Char := natCharsAux (n + 1) n

/-- Decimal rendering of an integer, as Python's `json.dumps` prints it. -/
def intChars (n : Int) : List Char :=
  if n < 0 then '-' :: natChars n.natAbs else natChars n.toNat

/-- Numeric value of a digit character. -/
def digitVal (c : Char) : Nat := c.toNat - 48

/-- Value of a most-significant-first digit string. -/
def digitsToNat (ds : List Char) : Nat := ds.foldl (fun a c => 10 * a + digitVal c) 0

/-- True for a multi-digit literal starting with `0`, which JSON rejects. -/
def leadZero : List Char → Bool
  | c :: _ :: _ => c = '0'
  | _ => false

/-! ### JSON values (model of the Python data handled by `json`) -/

mutual
/-- JSON value, as decoded by the Python `json` module in `tradingView.py`. -/
inductive Json where
  | null : Json
  | bool (b : Bool) : Json
  | num (n : Int) : Json
  | str (s : String) : Json
  | arr (xs : JsonList) : Json
  | obj (kvs : JsonObj) : Json
/-- A JSON array body (Python list). -/
inductive JsonList where
  | nil : JsonList
  | cons (hd : Json) (tl : JsonList) : JsonList
/-- A JSON object body (Python dict, insertion ordered, string keys). -/
inductive JsonObj where
  | nil : JsonObj
  | cons (k : String) (v : Json) (tl : JsonObj) : JsonObj
end

mutual
/-- Structural size of a JSON value, used as parser fuel. -/
def sizeJ : Json → Nat
  | .null => 1
  | .bool _ => 1
  | .num _ => 1
  | .str _ => 1
  | .arr xs => 1 + sizeL xs
  | .obj kvs => 1 + sizeO kvs
/-- Structural size of a JSON array body. -/
def sizeL : JsonList → Nat
  | .nil => 0
  | .cons v tl => 1 + sizeJ v + sizeL tl
/-- Structural size of a JSON object body. -/
def sizeO : JsonObj → Nat
  | .nil => 0
  | .cons _ v tl => 1 + sizeJ v + sizeO tl
end

/-- Escape of one character inside a JSON string literal, as
`json.dumps` emits it for data in this model. -/
def escChar (c : Char) : List Char :=
  if c = '"' ∨ c = '\\' then ['\\', c] else [c]

/-- Escaped body of a JSON string literal. -/
def escapeChars : List Char → List Char
  | [] => []
  | c :: rest => escChar c ++ escapeChars rest

mutual
/-- Model of `json.dumps(value, separators=(",", ":"))`: the compact JSON
serialisation used by `TradingViewClient._wrap_message` (tradingView.py:69). -/
def dumpsJ : Json → List Char
  | .null => "null".data
  | .bool true => "true".data
  | .bool false => "false".data
  | .num n => intChars n
  | .str s => '"' :: (escapeChars s.data ++ ['"'])
  | .arr .nil => ['[', ']']
  | .arr (.cons v tl) => '[' :: (dumpsJ v ++ dumpsElems tl) ++ [']']
  | .obj .nil => ['{', '}']
  | .obj (.cons k v tl) => '{' :: (dumpsMember k v ++ dumpsMembers tl) ++ ['}']
/-- One serialised object member `"k":v`. -/
def dumpsMember (k : String) (v : Json) : List Char :=
  '"' :: (escapeChars k.data ++ ('"' :: ':' :: dumpsJ v))
/-- Serialised remaining array elements, each preceded by `,`. -/
def dumpsElems : JsonList → List Char
  | .nil => []
  | .cons v tl => ',' :: (dumpsJ v ++ dumpsElems tl)
/-- Serialised remaining object members, each preceded by `,`. -/
def dumpsMembers : JsonObj → List Char
  | .nil => []
  | .cons k v tl => ',' :: (dumpsMember k v ++ dumpsMembers tl)
end

/-- First-match lookup in a JSON object, as Python `dict` lookup behaves
for the dicts `json.loads` can produce. -/
def olookup : JsonObj → String → Option Json
  | .nil, _ => none
  | .cons k v tl, key => if k = key then some v else olookup tl key

/-- Zero-based indexing into a JSON array, Python `list[i]` for `i ≥ 0`. -/
def jlGet : JsonList → Nat → Option Json
  | .nil, _ => none
  | .cons v _, 0 => some v
  | .cons _ tl, n+1 => jlGet tl n

/-! ### Model of `json.loads`: a strict recursive-descent parser -/

/-- Parse the body of a JSON string literal after the opening quote,
accepting the escapes `\"` and `\\` (the ones `dumpsJ` emits). -/
def parseStrChars : List Char → Option (List Char × List Char)
  | [] => none
  | c :: rest =>
    if c = '"' then some ([], rest)
    else if c = '\\' then
      match rest with
      | c2 :: rest2 =>
        if c2 = '"' ∨ c2 = '\\' then
          (parseStrChars rest2).map fun p => (c2 :: p.1, p.2)
        else none
      | [] => none
    else (parseStrChars rest).map fun p => (c :: p.1, p.2)

/-- Parse a JSON natural-number literal (maximal digit run, no leading zero). -/
def parseNatNum (cs : List Char) : Option (Nat × List Char) :=
  let ds := cs.takeWhile Char.isDigit
  if ds.isEmpty then none
  else if leadZero ds then none
  else some (digitsToNat ds, cs.dropWhile Char.isDigit)

/-- Parse a JSON integer literal with optional leading minus. -/
def parseNumber (cs : List Char) : Option (Json × List Char) :=
  match cs with
  | [] => none
  | c :: cs' =>
    if c = '-' then (parseNatNum cs').map fun p => (.num (-(p.1 : Int)), p.2)
    else (parseNatNum (c :: cs')).map fun p => (.num (p.1 : Int), p.2)

/-- Consume an expected literal character sequence. -/
def expectChars : List Char → List Char → Option (List Char)
  | [], cs => some cs
  | e :: es, c :: cs => if c = e then expectChars es cs else none
  | _ :: _, [] => none

/-- One layer of the JSON value parser, parametrised by the parsers for
array bodies and object bodies. -/
def parseValF (pe : List Char → Option (JsonList × List Char))
    (pm : List Char → Option (JsonObj × List Char)) :
    List Char → Option (Json × List Char) := fun cs =>
  match cs with
  | [] => none
  | c :: cs' =>
    if c = 'n' then (expectChars ['u', 'l', 'l'] cs').map fun r => (.null, r)
    else if c = 't' then (expectChars ['r', 'u', 'e'] cs').map fun r => (.bool true, r)
    else if c = 'f' then (expectChars ['a', 'l', 's', 'e'] cs').map fun r => (.bool false, r)
    else if c = '"' then (parseStrChars cs').map fun p => (.str (String.mk p.1), p.2)
    else if c = '[' then
      match cs' with
      | [] => none
      | d :: r =>
        if d = ']' then some (.arr .nil, r)
        else (pe (d :: r)).map fun p => (.arr p.1, p.2)
    else if c = '{' then
      match cs' with
      | [] => none
      | d :: r =>
        if d = '}' then some (.obj .nil, r)
        else (pm (d :: r)).map fun p => (.obj p.1, p.2)
    else parseNumber (c :: cs')

/-- One layer of the parser for a nonempty JSON array body up to `]`. -/
def parseElemsF (pv : List Char → Option (Json × List Char))
    (pe : List Char → Option (JsonList × List Char)) :
    List Char → Option (JsonList × List Char) := fun cs =>
  (pv cs).bind fun p =>
    match p.2 with
    | [] => none
    | c :: r2 =>
      if c = ',' then (pe r2).map fun q => (.cons p.1 q.1, q.2)
      else if c = ']' then some (.cons p.1 .nil, r2)
      else none

/-- One layer of the parser for a nonempty JSON object body up to `}`. -/
def parseMembersF (pv : List Char → Option (Json × List Char))
    (pm : List Char → Option (JsonObj × List Char)) :
    List Char → Option (JsonObj × List Char) := fun cs =>
  match cs with
  | [] => none
  | c :: cs' =>
    if c = '"' then
      (parseStrChars cs').bind fun kp =>
        match kp.2 with
        | [] => none
        | c2 :: r2 =>
          if c2 = ':' then
            (pv r2).bind fun vp =>
              match vp.2 with
              | [] => none
              | c3 :: r4 =>
                if c3 = ',' then (pm r4).map fun q => (.cons (String.mk kp.1) vp.1 q.1, q.2)
                else if c3 = '}' then some (.cons (String.mk kp.1) vp.1 .nil, r4)
                else none
          else none
    else none

/-- Fuel-indexed triple of mutually recursive JSON parsers. -/
def parsers : Nat →
    ((List Char → Option (Json × List Char)) ×
     (List Char → Option (JsonList × List Char)) ×
     (List Char → Option (JsonObj × List Char)))
  | 0 => (fun _ => none, fun _ => none, fun _ => none)
  | fuel+1 =>
    let p := parsers fuel
    (parseValF p.2.1 p.2.2, parseElemsF p.1 p.2.1, parseMembersF p.1 p.2.2)

/-- JSON value parser at a given fuel. -/
def parseVal (fuel : Nat) : List Char → Option (Json × List Char) := (parsers fuel).1

/-- JSON array-body parser at a given fuel. -/
def parseElems (fuel : Nat) : List Char → Option (JsonList × List Char) := (parsers fuel).2.1

/-- JSON object-body parser at a given fuel. -/
def parseMembers (fuel : Nat) : List Char → Option (JsonObj × List Char) := (parsers fuel).2.2

/-- Model of `json.loads`: parse a complete JSON document, rejecting
trailing data, with fuel that suffices for any parseable input. -/
def loads (cs : List Char) : Option Json :=
  match parseVal (cs.length + 1) cs with
  | some (v, []) => some v
  | _ => none

/-! ### The `~m~` wire framing -/

/-- Whether a character list begins with the frame delimiter `~m~`. -/
def startsTm : List Char → Bool
  | c1 :: c2 :: c3 :: _ => c1 = '~' && c2 = 'm' && c3 = '~'
  | _ => false

/-- Whether `~m~` occurs anywhere in a character list. -/
def containsTm : List Char → Bool
  | [] => false
  | c :: rest => startsTm (c :: rest) || containsTm rest

/-- Split a character list at the leftmost occurrence of `~m~`: the token
before it and the remainder after it, or `none` when `~m~` never occurs. -/
def breakTm : List Char → Option (List Char × List Char)
  | [] => none
  | c1 :: rest =>
    match rest with
    | c2 :: c3 :: rest2 =>
      if c1 = '~' && c2 = 'm' && c3 = '~' then some ([], rest2)
      else (breakTm rest).map fun p => (c1 :: p.1, p.2)
    | _ => (breakTm rest).map fun p => (c1 :: p.1, p.2)

/-- Fuel-indexed repeated splitting on `~m~`; the fuel in `pySplit` always
suffices, since every split consumes the three delimiter characters. -/
def splitTmCore : Nat → List Char → List (List Char)
  | 0, s => [s]
  | fuel+1, s =>
    match breakTm s with
    | none => [s]
    | some (tok, rest) => tok :: splitTmCore fuel rest

/-- Model of Python `raw_msg.split("~m~")` (tradingView.py:79). -/
def pySplit (raw : List Char) : List (List Char) := splitTmCore (raw.length + 1) raw

/-- Model of Python `raw_msg.startswith("~h~")` (tradingView.py:75). -/
def startsHsep : List Char → Bool
  | c1 :: c2 :: c3 :: _ => c1 = '~' && c2 = 'h' && c3 = '~'
  | _ => false

/-! ### The message handler `on_message` -/

/-- Python exceptions that can escape the modelled code paths. -/
inductive PyErr where
  | attributeError : PyErr
  | keyError : PyErr
  | indexError : PyErr
  | typeError : PyErr
  | valueError : PyErr
  | requestError : PyErr
  | wsError : PyErr
deriving DecidableEq

/-- Observable effects of one `on_message` call: frames sent on the socket
(the source callback sends none), the price event logged (symbol and price
as raw JSON values), and an uncaught Python exception if one is raised. -/
structure MsgOutcome where
  sent : List (List Char)
  event : Option (Json × Json)
  err : Option PyErr

/-- Python subscript `value[key]` with a string key: dict lookup
(KeyError when absent), TypeError on non-dicts. -/
def pySubscriptStr : Json → String → Except PyErr Json
  | .obj kvs, key =>
    match olookup kvs key with
    | some v => .ok v
    | none => .error .keyError
  | _, _ => .error .typeError

/-- Python subscript `value[i]` with a nonnegative int: list indexing
(IndexError out of range), string indexing, KeyError on dicts with only
string keys, TypeError otherwise. -/
def pySubscriptNat : Json → Nat → Except PyErr Json
  | .arr xs, i =>
    match jlGet xs i with
    | some v => .ok v
    | none => .error .indexError
  | .obj _, _ => .error .keyError
  | .str s, i =>
    match s.data.get? i with
    | some c => .ok (.str (String.mk [c]))
    | none => .error .indexError
  | _, _ => .error .typeError

/-- Whether `data.get("m")`'s result compares equal to the string `"qsd"`
under Python `==`. -/
def isQsd : Option Json → Bool
  | some (.str s) => s = "qsd"
  | _ => false

/-- The subscript chain of tradingView.py:91-92:
`data["p"][1]["n"]` and `data["p"][1]["v"]["lp"]`, with Python's
exception behaviour at each step. -/
def qsdExtract (data : Json) : Except PyErr (Json × Json) :=
  match pySubscriptStr data "p" with
  | .error e => .error e
  | .ok p =>
    match pySubscriptNat p 1 with
    | .error e => .error e
    | .ok p1 =>
      match pySubscriptStr p1 "n" with
      | .error e => .error e
      | .ok sym =>
        match pySubscriptStr p1 "v" with
        | .error e => .error e
        | .ok v =>
          match pySubscriptStr v "lp" with
          | .error e => .error e
          | .ok lp => .ok (sym, lp)

/-- The price-event block of `on_message` (tradingView.py:88-93): Python
`data.get("m")` raises AttributeError on non-dicts; when the method is
`"qsd"` the subscript chain runs and its exception, if any, escapes. -/
def interpretEnvelope (data : Json) : MsgOutcome :=
  match data with
  | .obj kvs =>
    if isQsd (olookup kvs "m") then
      match qsdExtract data with
      | .ok sp => { sent := [], event := some sp, err := none }
      | .error e => { sent := [], event := none, err := some e }
    else { sent := [], event := none, err := none }
  | _ => { sent := [], event := none, err := some .attributeError }

/-- The frame-decoding front half of `on_message` (tradingView.py:75-86):
discard `~h~`-prefixed and blank messages, split on `~m~`, require at
least three parts, and JSON-parse `parts[2]` only; a parse failure yields
nothing.  Returns the (at most one) decoded envelope. -/
def decodeEnvelopes (raw : List Char) : List Json :=
  if startsHsep raw || raw.all Char.isWhitespace then []
  else
    let parts := pySplit raw
    if parts.length < 3 then []
    else
      match loads (parts.getD 2 []) with
      | some d => [d]
      | none => []

/-- Model of `TradingViewClient.on_message` (tradingView.py:72-93):
decode the raw transport text, then run the price-event block on the
decoded envelope, if any. -/
def on_message (raw : List Char) : MsgOutcome :=
  match decodeEnvelopes raw with
  | [] => { sent := [], event := none, err := none }
  | d :: _ => interpretEnvelope d

/-! ### The encoder `_wrap_message` and frame constructions -/

/-- The envelope dict `{"m": func, "p": params}` built at tradingView.py:69. -/
def envelopeJson (func : String) (params : JsonList) : Json :=
  .obj (.cons "m" (.str func) (.cons "p" (.arr params) .nil))

/-- A wire frame `~m~<len>~m~<payload>` for a given payload, with the
declared length equal to the payload's character count. -/
def frameFor (payload : List Char) : List Char :=
  '~' :: 'm' :: '~' :: (natChars payload.length ++ ('~' :: 'm' :: '~' :: payload))

/-- Model of `TradingViewClient._wrap_message` (tradingView.py:66-70). -/
def wrap_message (func : String) (params : JsonList) : List Char :=
  frameFor (dumpsJ (envelopeJson func params))

/-- Concatenation of frames for a list of payloads, as a coalescing
transport would deliver them in one message. -/
def concatFrames (ps : List (List Char)) : List Char := (ps.map frameFor).flatten

/-! ### The client object, symbol search, `on_open` and the run loop -/

/-- One row of the TradingView REST symbol-search response, restricted to
the fields `on_open` reads. -/
structure SearchResult where
  exchange : String
  symbol : String

/-- Environment outcome of one `_search_symbol` call: a network/HTTP
failure from `requests`, or a decoded result list. -/
inductive SearchOutcome where
  | netError : SearchOutcome
  | results : List SearchResult → SearchOutcome

/-- Model of `TradingViewClient._search_symbol` (tradingView.py:55-64):
network failure raises, an empty result list raises ValueError, and
otherwise `results[0]` is returned. -/
def search_symbol : SearchOutcome → Except PyErr SearchResult
  | .netError => .error .requestError
  | .results [] => .error .valueError
  | .results (r :: _) => .ok r

/-- The client state set up by `TradingViewClient.__init__`
(tradingView.py:40-48). -/
structure Client where
  symbol : String
  category : String
  session_id : String

/-- Model of `TradingViewClient._generate_session_id` (tradingView.py:50-53):
`"qs_"` followed by 12 characters drawn from the random source `pick`. -/
def generate_session_id (pick : Nat → Char) : String :=
  "qs_" ++ String.mk ((List.range 12).map pick)

/-- Model of `TradingViewClient.__init__`: the session id is generated
here, once, and stored on the client. -/
def mkClient (symbol category : String) (pick : Nat → Char) : Client :=
  { symbol := symbol, category := category, session_id := generate_session_id pick }

/-- The subscription identifier built at tradingView.py:110:
`f"{meta['exchange'].upper()}:{meta['symbol'].upper()}"`. -/
def subscribeId (r : SearchResult) : String :=
  r.exchange.toUpper ++ ":" ++ r.symbol.toUpper

/-- Observable effects of one `on_open` call: frames sent in order,
whether `_search_symbol` was invoked, and an exception escaping the
callback if the search failed. -/
structure OpenOutcome where
  sent : List (List Char)
  searched : Bool
  err : Option PyErr

/-- Model of `TradingViewClient.on_open` (tradingView.py:101-111): send
`quote_create_session` and `quote_set_fields`, then call `_search_symbol`
(whose failure aborts the callback after those two sends), then send
`quote_add_symbols` for the first search result. -/
def on_open (c : Client) (search : SearchOutcome) : OpenOutcome :=
  let m1 := wrap_message "quote_create_session" (.cons (.str c.session_id) .nil)
  let m2 := wrap_message "quote_set_fields"
    (.cons (.str c.session_id) (.cons (.str "lp") .nil))
  match search_symbol search with
  | .error e => { sent := [m1, m2], searched := true, err := some e }
  | .ok meta =>
    { sent := [m1, m2,
        wrap_message "quote_add_symbols"
          (.cons (.str c.session_id) (.cons (.str (subscribeId meta)) .nil))],
      searched := true, err := none }

/-- Environment outcome of one iteration of the `run` loop: the transport
fails before opening, or it opens (running `on_open` with the given search
outcome) and later closes. -/
inductive AttemptEnv where
  | connectError : AttemptEnv
  | opens : SearchOutcome → AttemptEnv

/-- Whether an attempt reached the open callback. -/
def isOpens : AttemptEnv → Bool
  | .connectError => false
  | .opens _ => true

/-- Observable record of one iteration of the `run` loop. -/
structure AttemptRecord where
  session_id : String
  sent : List (List Char)
  searched : Bool
  err : Option PyErr
  sleep : Nat

/-- Placeholder record used as the default for out-of-range indexing. -/
def noRecord : AttemptRecord :=
  { session_id := "", sent := [], searched := false, err := none, sleep := 0 }

/-- The backoff cap constant `BACKOFF_MAX` (tradingView.py:34). -/
def BACKOFF_MAX : Nat := 300

/-- Worker for `runTrace`, carrying the current backoff delay through the
loop body of `TradingViewClient.run` (tradingView.py:113-134): every
iteration ends with `time.sleep(backoff)` and
`backoff = min(backoff * 2, BACKOFF_MAX)`, and the loop never exits. -/
def runTraceAux (c : Client) : Nat → List AttemptEnv → List AttemptRecord
  | _, [] => []
  | backoff, .connectError :: rest =>
    { session_id := c.session_id, sent := [], searched := false,
      err := some .wsError, sleep := backoff }
      :: runTraceAux c (min (backoff * 2) BACKOFF_MAX) rest
  | backoff, .opens so :: rest =>
    { session_id := c.session_id, sent := (on_open c so).sent,
      searched := (on_open c so).searched, err := (on_open c so).err,
      sleep := backoff }
      :: runTraceAux c (min (backoff * 2) BACKOFF_MAX) rest

/-- Model of `TradingViewClient.run`: the per-attempt records of the
infinite reconnect loop, for a finite script of environment outcomes,
starting from `backoff = 1`. -/
def runTrace (c : Client) (script : List AttemptEnv) : List AttemptRecord :=
  runTraceAux c 1 script

/-- Whether a character list is empty or starts with a non-digit; the
boundary condition under which a serialised number is parsed back
unchanged. -/
def noDigitHead : List Char → Bool
  | [] => true
  | c :: _ => !c.isDigit

/-! ### Digit and number lemmas -/

theorem natCharsAux_congr : ∀ f1 f2 n, n < f1 → n < f2 → natCharsAux f1 n = natCharsAux f2 n := by
  intro f1
  induction f1 with
  | zero => intro f2 n h; omega
  | succ f ih =>
    intro f2 n h1 h2
    cases f2 with
    | zero => omega
    | succ g =>
      simp only [natCharsAux]
      by_cases h10 : n < 10
      · simp [h10]
      · have hd : n / 10 < n := Nat.div_lt_self (by omega) (by omega)
        simp only [h10, if_false]
        rw [ih g (n / 10) (by omega) (by omega)]

theorem natChars_eq (n : Nat) :
    natChars n = if n < 10 then [digitChar n] else natChars (n / 10) ++ [digitChar (n % 10)] := by
  have h0 : natChars n =
      if n < 10 then [digitChar n] else natCharsAux n (n / 10) ++ [digitChar (n % 10)] := rfl
  rw [h0]
  by_cases h : n < 10
  · simp [h]
  · have hd : n / 10 < n := Nat.div_lt_self (by omega) (by omega)
    simp only [h, if_false]
    rw [natCharsAux_congr n (n / 10 + 1) (n / 10) (by omega) (by omega)]
    rfl

theorem digitChar_isDigit (d : Nat) (h : d < 10) : (digitChar d).isDigit = true := by
  interval_cases d <;> decide

theorem digitVal_digitChar (d : Nat) (h : d < 10) : digitVal (digitChar d) = d := by
  interval_cases d <;> decide

theorem digitChar_ne_zero (d : Nat) (h0 : 0 < d) (h : d < 10) : digitChar d ≠ '0' := by
  interval_cases d <;> decide

theorem natChars_ne_nil (n : Nat) : natChars n ≠ [] := by
  rw [natChars_eq]
  by_cases h : n < 10 <;> simp [h]

theorem natChars_digits (n : Nat) : ∀ c ∈ natChars n, c.isDigit = true := by
  induction n using Nat.strong_induction_on with
  | _ n ih =>
    rw [natChars_eq]
    by_cases h : n < 10
    · simp only [h, if_true, List.mem_singleton]
      intro c hc
      rw [hc]; exact digitChar_isDigit n h
    · have hd : n / 10 < n := Nat.div_lt_self (by omega) (by omega)
      simp only [h, if_false, List.mem_append, List.mem_singleton]
      rintro c (hc | hc)
      · exact ih (n / 10) hd c hc
      · rw [hc]; exact digitChar_isDigit (n % 10) (Nat.mod_lt _ (by omega))

theorem natChars_head_ne_zero (n : Nat) (hn : n ≠ 0) : (natChars n).head? ≠ some '0' := by
  induction n using Nat.strong_induction_on with
  | _ n ih =>
    rw [natChars_eq]
    by_cases h : n < 10
    · simp only [h, if_true, List.head?_cons]
      intro hc
      exact digitChar_ne_zero n (by omega) h (by exact Option.some.inj hc)
    · have hd : n / 10 < n := Nat.div_lt_self (by omega) (by omega)
      have hne : natChars (n / 10) ≠ [] := natChars_ne_nil _
      simp only [h, if_false]
      rw [List.head?_append_of_ne_nil _ hne]
      exact ih (n / 10) hd (by omega)

theorem leadZero_natChars (n : Nat) : leadZero (natChars n) = false := by
  by_cases h : n < 10
  · rw [natChars_eq]; simp [h, leadZero]
  · have hne : natChars (n / 10) ≠ [] := natChars_ne_nil _
    obtain ⟨c, cs, hcs⟩ := List.exists_cons_of_ne_nil hne
    have hc0 : c ≠ '0' := by
      have := natChars_head_ne_zero (n / 10) (by omega)
      rw [hcs] at this
      simp only [List.head?_cons] at this
      intro hh; rw [hh] at this; exact this rfl
    rw [natChars_eq]
    simp only [h, if_false, hcs, List.cons_append]
    cases hx : cs ++ [digitChar (n % 10)] with
    | nil => simp at hx
    | cons c2 t => simp [leadZero, hc0]

theorem foldl_digits (n : Nat) :
    ∀ a, (natChars n).foldl (fun x c => 10 * x + digitVal c) a =
      a * 10 ^ (natChars n).length + n := by
  induction n using Nat.strong_induction_on with
  | _ n ih =>
    intro a
    rw [natChars_eq]
    by_cases h : n < 10
    · simp only [h, if_true, List.foldl_cons, List.foldl_nil, List.length_singleton]
      rw [digitVal_digitChar n h]
      ring
    · have hd : n / 10 < n := Nat.div_lt_self (by omega) (by omega)
      simp only [h, if_false, List.foldl_append, List.foldl_cons, List.foldl_nil,
        List.length_append, List.length_singleton]
      rw [ih (n / 10) hd a, digitVal_digitChar (n % 10) (Nat.mod_lt _ (by omega))]
      calc 10 * (a * 10 ^ (natChars (n / 10)).length + n / 10) + n % 10
          = a * (10 ^ (natChars (n / 10)).length * 10) + (10 * (n / 10) + n % 10) := by ring
        _ = a * 10 ^ ((natChars (n / 10)).length + 1) + n := by
            rw [Nat.div_add_mod, pow_succ]

theorem digitsToNat_natChars (n : Nat) : digitsToNat (natChars n) = n := by
  unfold digitsToNat
  rw [foldl_digits n 0]
  simp

/-! ### Character-class helpers -/

theorem isDigit_ne (c x : Char) (hc : c.isDigit = true) (hx : x.isDigit = false) : c ≠ x := by
  intro h
  rw [h, hx] at hc
  exact Bool.noConfusion hc

/-! ### takeWhile and dropWhile over a digit run -/

theorem takeWhile_all_append (p : Char → Bool) :
    ∀ ds rest : List Char, (∀ c ∈ ds, p c = true) →
      (ds ++ rest).takeWhile p = ds ++ rest.takeWhile p ∧
      (ds ++ rest).dropWhile p = rest.dropWhile p := by
  intro ds
  induction ds with
  | nil => intro rest _; simp
  | cons c t ih =>
    intro rest h
    have hc : p c = true := h c (List.mem_cons_self c t)
    have ht := ih rest (fun x hx => h x (List.mem_cons_of_mem c hx))
    simp [List.takeWhile_cons, List.dropWhile_cons, hc, ht.1, ht.2]

theorem takeWhile_nonDigit (rest : List Char) (h : noDigitHead rest = true) :
    rest.takeWhile Char.isDigit = [] ∧ rest.dropWhile Char.isDigit = rest := by
  cases rest with
  | nil => simp
  | cons c t =>
    simp only [noDigitHead, Bool.not_eq_true'] at h
    simp [List.takeWhile_cons, List.dropWhile_cons, h]

/-! ### Number parsing round trip -/

theorem parseNatNum_natChars (n : Nat) (rest : List Char) (h : noDigitHead rest = true) :
    parseNatNum (natChars n ++ rest) = some (n, rest) := by
  obtain ⟨ht, hd⟩ := takeWhile_all_append Char.isDigit (natChars n) rest (natChars_digits n)
  obtain ⟨hr1, hr2⟩ := takeWhile_nonDigit rest h
  unfold parseNatNum
  rw [ht, hd, hr1, hr2, List.append_nil]
  simp [List.isEmpty_iff, natChars_ne_nil n, leadZero_natChars n, digitsToNat_natChars n]

theorem parseNumber_intChars (n : Int) (rest : List Char) (h : noDigitHead rest = true) :
    parseNumber (intChars n ++ rest) = some (.num n, rest) := by
  by_cases hn : n < 0
  · have hi : intChars n = '-' :: natChars n.natAbs := by
      unfold intChars
      rw [if_pos hn]
    rw [hi]
    simp only [List.cons_append, parseNumber, if_pos rfl]
    rw [parseNatNum_natChars n.natAbs rest h]
    have hv : -((n.natAbs : Nat) : Int) = n := by omega
    show some (Json.num (-((n.natAbs : Nat) : Int)), rest) = some (Json.num n, rest)
    rw [hv]
  · have he : intChars n = natChars n.toNat := by
      unfold intChars
      rw [if_neg hn]
    obtain ⟨c, cs, hcs⟩ := List.exists_cons_of_ne_nil (natChars_ne_nil n.toNat)
    have hcd : c.isDigit = true := by
      apply natChars_digits n.toNat
      rw [hcs]; exact List.mem_cons_self c cs
    have hcm : ¬c = '-' := isDigit_ne c '-' hcd (by decide)
    rw [he, hcs]
    simp only [List.cons_append, parseNumber, if_neg hcm]
    rw [← List.cons_append, ← hcs, parseNatNum_natChars n.toNat rest h]
    have hv : ((n.toNat : Nat) : Int) = n := by omega
    show some (Json.num ((n.toNat : Nat) : Int), rest) = some (Json.num n, rest)
    rw [hv]

/-! ### String body round trip -/

theorem parseStrChars_cons (c : Char) (rest : List Char) :
    parseStrChars (c :: rest) =
      if c = '"' then some ([], rest)
      else if c = '\\' then
        match rest with
        | c2 :: rest2 =>
          if c2 = '"' ∨ c2 = '\\' then (parseStrChars rest2).map fun p => (c2 :: p.1, p.2)
          else none
        | [] => none
      else (parseStrChars rest).map fun p => (c :: p.1, p.2) := by
  rw [parseStrChars.eq_def]

theorem parseStrChars_escape :
    ∀ s rest : List Char, parseStrChars (escapeChars s ++ ('"' :: rest)) = some (s, rest) := by
  intro s
  induction s with
  | nil =>
    intro rest
    rw [escapeChars, List.nil_append, parseStrChars_cons]
    rw [if_pos rfl]
  | cons c t ih =>
    intro rest
    by_cases hq : c = '"' ∨ c = '\\'
    · have hesc : escapeChars (c :: t) = '\\' :: (c :: escapeChars t) := by
        rw [escapeChars, escChar, if_pos hq]
        rfl
      rw [hesc, List.cons_append, List.cons_append, parseStrChars_cons]
      rw [if_neg (by decide : ¬('\\' : Char) = '"'), if_pos rfl]
      show (if c = '"' ∨ c = '\\' then
          (parseStrChars (escapeChars t ++ '"' :: rest)).map fun p => (c :: p.1, p.2)
        else none) = some (c :: t, rest)
      rw [if_pos hq, ih rest]
      rfl
    · have h1 : ¬c = '"' := fun hh => hq (Or.inl hh)
      have h2 : ¬c = '\\' := fun hh => hq (Or.inr hh)
      have hesc : escapeChars (c :: t) = c :: escapeChars t := by
        rw [escapeChars, escChar, if_neg hq]
        rfl
      rw [hesc, List.cons_append, parseStrChars_cons]
      rw [if_neg h1, if_neg h2, ih rest]
      rfl

/-! ### Parser layer unfolding lemmas -/

theorem String_mk_data (s : String) : String.mk s.data = s := by
  cases s
  rfl

theorem parseVal_succ (g : Nat) :
    parseVal (g + 1) = parseValF (parseElems g) (parseMembers g) := rfl

theorem parseElems_succ (g : Nat) :
    parseElems (g + 1) = parseElemsF (parseVal g) (parseElems g) := rfl

theorem parseMembers_succ (g : Nat) :
    parseMembers (g + 1) = parseMembersF (parseVal g) (parseMembers g) := rfl

theorem parseValF_cons (pe : List Char → Option (JsonList × List Char))
    (pm : List Char → Option (JsonObj × List Char)) (c : Char) (cs' : List Char) :
    parseValF pe pm (c :: cs') =
      (if c = 'n' then (expectChars ['u', 'l', 'l'] cs').map fun r => (.null, r)
      else if c = 't' then (expectChars ['r', 'u', 'e'] cs').map fun r => (.bool true, r)
      else if c = 'f' then (expectChars ['a', 'l', 's', 'e'] cs').map fun r => (.bool false, r)
      else if c = '"' then (parseStrChars cs').map fun p => (.str (String.mk p.1), p.2)
      else if c = '[' then
        match cs' with
        | [] => none
        | d :: r =>
          if d = ']' then some (.arr .nil, r)
          else (pe (d :: r)).map fun p => (.arr p.1, p.2)
      else if c = '{' then
        match cs' with
        | [] => none
        | d :: r =>
          if d = '}' then some (.obj .nil, r)
          else (pm (d :: r)).map fun p => (.obj p.1, p.2)
      else parseNumber (c :: cs')) := rfl

theorem parseMembersF_cons (pv : List Char → Option (Json × List Char))
    (pm : List Char → Option (JsonObj × List Char)) (c : Char) (cs' : List Char) :
    parseMembersF pv pm (c :: cs') =
      (if c = '"' then
        (parseStrChars cs').bind fun kp =>
          match kp.2 with
          | [] => none
          | c2 :: r2 =>
            if c2 = ':' then
              (pv r2).bind fun vp =>
                match vp.2 with
                | [] => none
                | c3 :: r4 =>
                  if c3 = ',' then (pm r4).map fun q => (.cons (String.mk kp.1) vp.1 q.1, q.2)
                  else if c3 = '}' then some (.cons (String.mk kp.1) vp.1 .nil, r4)
                  else none
            else none
      else none) := rfl

/-! ### Heads of serialised values -/

theorem sizeJ_pos (v : Json) : 1 ≤ sizeJ v := by
  cases v <;> simp [sizeJ]

theorem intChars_head (n : Int) :
    ∃ c cs, intChars n = c :: cs ∧ (c = '-' ∨ c.isDigit = true) := by
  unfold intChars
  by_cases hn : n < 0
  · rw [if_pos hn]
    exact ⟨'-', natChars n.natAbs, rfl, Or.inl rfl⟩
  · rw [if_neg hn]
    obtain ⟨c, cs, h⟩ := List.exists_cons_of_ne_nil (natChars_ne_nil n.toNat)
    refine ⟨c, cs, h, Or.inr ?_⟩
    apply natChars_digits
    rw [h]
    exact List.mem_cons_self _ _

theorem dumpsJ_head_spec (v : Json) :
    ∃ c cs, dumpsJ v = c :: cs ∧ ¬c = ']' ∧ ¬c = '}' := by
  cases v with
  | null => exact ⟨'n', ['u', 'l', 'l'], by simp only [dumpsJ], by decide, by decide⟩
  | bool b =>
    cases b
    · exact ⟨'f', ['a', 'l', 's', 'e'], by simp only [dumpsJ], by decide, by decide⟩
    · exact ⟨'t', ['r', 'u', 'e'], by simp only [dumpsJ], by decide, by decide⟩
  | num n =>
    obtain ⟨c, cs, hcs, hcd⟩ := intChars_head n
    refine ⟨c, cs, by simp [dumpsJ, hcs], ?_, ?_⟩
    · rcases hcd with h | h
      · rw [h]; decide
      · exact isDigit_ne c ']' h (by decide)
    · rcases hcd with h | h
      · rw [h]; decide
      · exact isDigit_ne c '}' h (by decide)
  | str s => exact ⟨'"', escapeChars s.data ++ ['"'], by simp [dumpsJ], by decide, by decide⟩
  | arr xs =>
    cases xs with
    | nil => exact ⟨'[', [']'], by simp [dumpsJ], by decide, by decide⟩
    | cons v tl =>
      exact ⟨'[', dumpsJ v ++ (dumpsElems tl ++ [']']), by simp [dumpsJ], by decide, by decide⟩
  | obj kvs =>
    cases kvs with
    | nil => exact ⟨'{', ['}'], by simp [dumpsJ], by decide, by decide⟩
    | cons k v tl =>
      exact ⟨'{', dumpsMember k v ++ (dumpsMembers tl ++ ['}']), by simp [dumpsJ], by decide,
        by decide⟩

/-! ### The parse/serialise round trip -/

theorem parse_round : ∀ fuel : Nat,
    (∀ (v : Json) (rest : List Char), sizeJ v ≤ fuel → noDigitHead rest = true →
      parseVal fuel (dumpsJ v ++ rest) = some (v, rest)) ∧
    (∀ (v : Json) (tl : JsonList) (rest : List Char), 1 + sizeJ v + sizeL tl ≤ fuel →
      parseElems fuel (dumpsJ v ++ (dumpsElems tl ++ (']' :: rest))) =
        some (.cons v tl, rest)) ∧
    (∀ (k : String) (v : Json) (tl : JsonObj) (rest : List Char), 1 + sizeJ v + sizeO tl ≤ fuel →
      parseMembers fuel (dumpsMember k v ++ (dumpsMembers tl ++ ('}' :: rest))) =
        some (.cons k v tl, rest)) := by
  intro fuel
  induction fuel with
  | zero =>
    refine ⟨?_, ?_, ?_⟩
    · intro v rest hs _
      have := sizeJ_pos v
      omega
    · intro v tl rest hs
      omega
    · intro k v tl rest hs
      omega
  | succ g ih =>
    refine ⟨?_, ?_, ?_⟩
    · -- values
      intro v rest hs hnd
      cases v with
      | null =>
        simp only [dumpsJ, List.cons_append, List.nil_append]
        rfl
      | bool b =>
        cases b <;> (simp only [dumpsJ, List.cons_append, List.nil_append]; rfl)
      | num n =>
        obtain ⟨c, cs0, hcs, hcd⟩ := intChars_head n
        have hns : ¬c = 'n' ∧ ¬c = 't' ∧ ¬c = 'f' ∧ ¬c = '"' ∧ ¬c = '[' ∧ ¬c = '{' := by
          rcases hcd with h | h
          · rw [h]
            refine ⟨by decide, by decide, by decide, by decide, by decide, by decide⟩
          · exact ⟨isDigit_ne c 'n' h (by decide), isDigit_ne c 't' h (by decide),
              isDigit_ne c 'f' h (by decide), isDigit_ne c '"' h (by decide),
              isDigit_ne c '[' h (by decide), isDigit_ne c '{' h (by decide)⟩
        simp only [dumpsJ]
        rw [hcs, List.cons_append, parseVal_succ, parseValF_cons]
        rw [if_neg hns.1, if_neg hns.2.1, if_neg hns.2.2.1, if_neg hns.2.2.2.1,
          if_neg hns.2.2.2.2.1, if_neg hns.2.2.2.2.2]
        rw [← List.cons_append, ← hcs]
        exact parseNumber_intChars n rest hnd
      | str s =>
        simp only [dumpsJ, List.cons_append, List.append_assoc, List.singleton_append,
          List.nil_append]
        rw [parseVal_succ, parseValF_cons]
        rw [if_neg (by decide), if_neg (by decide), if_neg (by decide), if_pos rfl]
        rw [parseStrChars_escape s.data rest]
        show some (Json.str (String.mk s.data), rest) = some (Json.str s, rest)
        rw [String_mk_data]
      | arr xs =>
        cases xs with
        | nil =>
          simp only [dumpsJ, List.cons_append, List.nil_append]
          rfl
        | cons v tl =>
          have hE : 1 + sizeJ v + sizeL tl ≤ g := by
            simp only [sizeJ, sizeL] at hs
            omega
          have hnorm : dumpsJ (.arr (.cons v tl)) ++ rest =
              '[' :: (dumpsJ v ++ (dumpsElems tl ++ (']' :: rest))) := by
            simp [dumpsJ]
          rw [hnorm, parseVal_succ, parseValF_cons]
          rw [if_neg (by decide), if_neg (by decide), if_neg (by decide), if_neg (by decide),
            if_pos rfl]
          obtain ⟨c, cs0, hcs, hc1, _⟩ := dumpsJ_head_spec v
          rw [hcs, List.cons_append]
          show (if c = ']' then some (Json.arr .nil, cs0 ++ (dumpsElems tl ++ (']' :: rest)))
            else (parseElems g (c :: (cs0 ++ (dumpsElems tl ++ (']' :: rest))))).map
              fun p => (Json.arr p.1, p.2)) = some (Json.arr (.cons v tl), rest)
          rw [if_neg hc1, ← List.cons_append, ← hcs]
          rw [ih.2.1 v tl rest hE]
          rfl
      | obj kvs =>
        cases kvs with
        | nil =>
          simp only [dumpsJ, List.cons_append, List.nil_append]
          rfl
        | cons k v tl =>
          have hO : 1 + sizeJ v + sizeO tl ≤ g := by
            simp only [sizeJ, sizeO] at hs
            omega
          have hnorm : dumpsJ (.obj (.cons k v tl)) ++ rest =
              '{' :: (dumpsMember k v ++ (dumpsMembers tl ++ ('}' :: rest))) := by
            simp [dumpsJ]
          rw [hnorm, parseVal_succ, parseValF_cons]
          rw [if_neg (by decide), if_neg (by decide), if_neg (by decide), if_neg (by decide),
            if_neg (by decide), if_pos rfl]
          have hmem : ∃ c cs, dumpsMember k v = c :: cs ∧ ¬c = '}' := by
            refine ⟨'"', escapeChars k.data ++ ('"' :: ':' :: dumpsJ v), ?_, by decide⟩
            rw [dumpsMember]
          obtain ⟨c, cs0, hcs, hc1⟩ := hmem
          rw [hcs, List.cons_append]
          show (if c = '}' then some (Json.obj .nil, cs0 ++ (dumpsMembers tl ++ ('}' :: rest)))
            else (parseMembers g (c :: (cs0 ++ (dumpsMembers tl ++ ('}' :: rest))))).map
              fun p => (Json.obj p.1, p.2)) = some (Json.obj (.cons k v tl), rest)
          rw [if_neg hc1, ← List.cons_append, ← hcs]
          rw [ih.2.2 k v tl rest hO]
          rfl
    · -- array bodies
      intro v tl rest hsz
      rw [parseElems_succ]
      show (parseVal g (dumpsJ v ++ (dumpsElems tl ++ (']' :: rest)))).bind (fun p =>
        match p.2 with
        | [] => none
        | c :: r2 =>
          if c = ',' then (parseElems g r2).map fun q => (JsonList.cons p.1 q.1, q.2)
          else if c = ']' then some (JsonList.cons p.1 .nil, r2)
          else none) = some (JsonList.cons v tl, rest)
      cases tl with
      | nil =>
        simp only [dumpsElems, List.nil_append]
        rw [ih.1 v (']' :: rest) (by omega) rfl]
        rfl
      | cons v2 tl2 =>
        have hsz2 : 1 + sizeJ v2 + sizeL tl2 ≤ g := by
          simp only [sizeL] at hsz
          have := sizeJ_pos v
          omega
        have hszv : sizeJ v ≤ g := by
          simp only [sizeL] at hsz
          have := sizeJ_pos v2
          omega
        simp only [dumpsElems, List.cons_append, List.append_assoc]
        rw [ih.1 v (',' :: (dumpsJ v2 ++ (dumpsElems tl2 ++ (']' :: rest)))) hszv rfl]
        show (parseElems g (dumpsJ v2 ++ (dumpsElems tl2 ++ (']' :: rest)))).map
          (fun q => (JsonList.cons v q.1, q.2)) = some (JsonList.cons v (JsonList.cons v2 tl2), rest)
        rw [ih.2.1 v2 tl2 rest hsz2]
        rfl
    · -- object bodies
      intro k v tl rest hsz
      rw [parseMembers_succ]
      have hnorm : dumpsMember k v ++ (dumpsMembers tl ++ ('}' :: rest)) =
          '"' :: (escapeChars k.data ++ ('"' :: (':' :: (dumpsJ v ++ (dumpsMembers tl ++ ('}' :: rest)))))) := by
        rw [dumpsMember]
        simp [List.cons_append, List.append_assoc]
      rw [hnorm, parseMembersF_cons, if_pos rfl]
      rw [parseStrChars_escape k.data (':' :: (dumpsJ v ++ (dumpsMembers tl ++ ('}' :: rest))))]
      show (parseVal g (dumpsJ v ++ (dumpsMembers tl ++ ('}' :: rest)))).bind (fun vp =>
        match vp.2 with
        | [] => none
        | c3 :: r4 =>
          if c3 = ',' then (parseMembers g r4).map
            fun q => (JsonObj.cons (String.mk k.data) vp.1 q.1, q.2)
          else if c3 = '}' then some (JsonObj.cons (String.mk k.data) vp.1 .nil, r4)
          else none) = some (JsonObj.cons k v tl, rest)
      cases tl with
      | nil =>
        simp only [dumpsMembers, List.nil_append]
        rw [ih.1 v ('}' :: rest) (by omega) rfl]
        show some (JsonObj.cons (String.mk k.data) v .nil, rest) = some (JsonObj.cons k v .nil, rest)
        rw [String_mk_data]
      | cons k2 v2 tl2 =>
        have hsz2 : 1 + sizeJ v2 + sizeO tl2 ≤ g := by
          simp only [sizeO] at hsz
          have := sizeJ_pos v
          omega
        have hszv : sizeJ v ≤ g := by
          simp only [sizeO] at hsz
          have := sizeJ_pos v2
          omega
        simp only [dumpsMembers, List.cons_append, List.append_assoc]
        rw [ih.1 v (',' :: (dumpsMember k2 v2 ++ (dumpsMembers tl2 ++ ('}' :: rest)))) hszv rfl]
        show (parseMembers g (dumpsMember k2 v2 ++ (dumpsMembers tl2 ++ ('}' :: rest)))).map
          (fun q => (JsonObj.cons (String.mk k.data) v q.1, q.2)) =
          some (JsonObj.cons k v (JsonObj.cons k2 v2 tl2), rest)
        rw [ih.2.2 k2 v2 tl2 rest hsz2]
        show some (JsonObj.cons (String.mk k.data) v (JsonObj.cons k2 v2 tl2), rest) =
          some (JsonObj.cons k v (JsonObj.cons k2 v2 tl2), rest)
        rw [String_mk_data]

/-! ### Serialised length dominates parser fuel -/

theorem intChars_ne_nil (n : Int) : intChars n ≠ [] := by
  unfold intChars
  by_cases hn : n < 0
  · simp [hn]
  · simp [hn, natChars_ne_nil]

mutual
theorem sizeJ_le_len : ∀ v : Json, sizeJ v ≤ (dumpsJ v).length
  | .null => by simp only [sizeJ, dumpsJ]; decide
  | .bool b => by cases b <;> (simp only [sizeJ, dumpsJ]; decide)
  | .num n => by
    have h := intChars_ne_nil n
    have : 0 < (intChars n).length := List.length_pos.mpr h
    simp only [sizeJ, dumpsJ]
    omega
  | .str s => by simp [sizeJ, dumpsJ]
  | .arr .nil => by simp [sizeJ, sizeL, dumpsJ]
  | .arr (.cons v tl) => by
    have h1 := sizeJ_le_len v
    have h2 := sizeL_le_len tl
    simp only [sizeJ, sizeL, dumpsJ, List.length_append, List.length_cons]
    omega
  | .obj .nil => by simp [sizeJ, sizeO, dumpsJ]
  | .obj (.cons k v tl) => by
    have h1 := sizeJ_le_len v
    have h2 := sizeO_le_len tl
    simp only [sizeJ, sizeO, dumpsJ, dumpsMember, List.length_append, List.length_cons]
    omega
theorem sizeL_le_len : ∀ xs : JsonList, sizeL xs ≤ (dumpsElems xs).length
  | .nil => by simp [sizeL, dumpsElems]
  | .cons v tl => by
    have h1 := sizeJ_le_len v
    have h2 := sizeL_le_len tl
    simp only [sizeL, dumpsElems, List.length_append, List.length_cons]
    omega
theorem sizeO_le_len : ∀ kvs : JsonObj, sizeO kvs ≤ (dumpsMembers kvs).length
  | .nil => by simp [sizeO, dumpsMembers]
  | .cons k v tl => by
    have h1 := sizeJ_le_len v
    have h2 := sizeO_le_len tl
    simp only [sizeO, dumpsMembers, dumpsMember, List.length_append, List.length_cons]
    omega
end

/-- Model counterpart of the `json` library guarantee: parsing a compact
serialisation returns exactly the serialised value. -/
theorem loads_dumps (v : Json) : loads (dumpsJ v) = some v := by
  have h := (parse_round ((dumpsJ v).length + 1)).1 v []
    (by have := sizeJ_le_len v; omega) rfl
  rw [List.append_nil] at h
  unfold loads
  rw [h]

/-! ### Splitting on the frame delimiter -/

theorem breakTm_cons3 (c1 c2 c3 : Char) (r2 : List Char) :
    breakTm (c1 :: c2 :: c3 :: r2) =
      if c1 = '~' && c2 = 'm' && c3 = '~' then some ([], r2)
      else (breakTm (c2 :: c3 :: r2)).map fun p => (c1 :: p.1, p.2) := by
  rw [breakTm.eq_def]

theorem breakTm_one (c : Char) : breakTm [c] = none := rfl

theorem breakTm_two (c d : Char) : breakTm [c, d] = none := rfl

theorem breakTm_tm (rest : List Char) : breakTm ('~' :: 'm' :: '~' :: rest) = some ([], rest) := by
  rw [breakTm_cons3]
  simp

theorem containsTm_cons (c : Char) (t : List Char) :
    containsTm (c :: t) = (startsTm (c :: t) || containsTm t) := by
  rw [containsTm.eq_def]

theorem startsTm_false_of_not_tilde (c : Char) (X : List Char) (h : ¬c = '~') :
    startsTm (c :: X) = false := by
  cases X with
  | nil => rfl
  | cons x2 X2 =>
    cases X2 with
    | nil => rfl
    | cons x3 X3 => simp [startsTm, h]

theorem breakTm_cons_noStart (c : Char) (t : List Char) (h : startsTm (c :: t) = false) :
    breakTm (c :: t) = (breakTm t).map fun p => (c :: p.1, p.2) := by
  cases t with
  | nil => rfl
  | cons c2 t2 =>
    cases t2 with
    | nil => rfl
    | cons c3 r2 =>
      have h' : (c = '~' && c2 = 'm' && c3 = '~') = false := h
      rw [breakTm_cons3]
      simp [h']

theorem breakTm_no_sep (p : List Char) (h : containsTm p = false) : breakTm p = none := by
  induction p with
  | nil => rfl
  | cons c t ih =>
    rw [containsTm_cons, Bool.or_eq_false_iff] at h
    rw [breakTm_cons_noStart c t h.1, ih h.2]
    rfl

theorem startsTm_stable (c : Char) (p' rest : List Char) :
    startsTm (c :: (p' ++ ('~' :: 'm' :: '~' :: rest))) =
      startsTm (c :: (p' ++ ['~', 'm'])) := by
  cases p' with
  | nil => rfl
  | cons d p2 =>
    cases p2 with
    | nil => rfl
    | cons e p3 => rfl

theorem breakTm_through (p : List Char) (rest : List Char)
    (h : containsTm (p ++ ['~', 'm']) = false) :
    breakTm (p ++ ('~' :: 'm' :: '~' :: rest)) = some (p, rest) := by
  induction p with
  | nil =>
    rw [List.nil_append]
    exact breakTm_tm rest
  | cons c p' ih =>
    rw [List.cons_append] at h
    rw [containsTm_cons, Bool.or_eq_false_iff] at h
    have hst2 : startsTm (c :: (p' ++ ('~' :: 'm' :: '~' :: rest))) = false := by
      rw [startsTm_stable]
      exact h.1
    rw [List.cons_append, breakTm_cons_noStart _ _ hst2, ih h.2]
    rfl

theorem breakTm_length : ∀ s tok rest : List Char,
    breakTm s = some (tok, rest) → s.length = tok.length + 3 + rest.length := by
  intro s
  induction s with
  | nil => intro tok rest h; exact absurd h (by simp [breakTm])
  | cons c1 t ih =>
    intro tok rest h
    cases t with
    | nil =>
      rw [breakTm_one] at h
      exact absurd h (by simp)
    | cons c2 t2 =>
      cases t2 with
      | nil =>
        rw [breakTm_two] at h
        exact absurd h (by simp)
      | cons c3 r2 =>
        rw [breakTm_cons3] at h
        by_cases hsep : (c1 = '~' && c2 = 'm' && c3 = '~') = true
        · rw [if_pos hsep] at h
          obtain ⟨h1, h2⟩ := Prod.mk.injEq .. ▸ Option.some.inj h
          subst h1
          subst h2
          simp only [List.length_cons, List.length_nil]
          omega
        · rw [if_neg hsep] at h
          cases hbr : breakTm (c2 :: c3 :: r2) with
          | none => rw [hbr] at h; exact absurd h (by simp)
          | some p =>
            obtain ⟨tok', rest'⟩ := p
            rw [hbr] at h
            simp only [Option.map_some'] at h
            obtain ⟨h1, h2⟩ := Prod.mk.injEq .. ▸ Option.some.inj h
            subst h1
            subst h2
            have hlen := ih tok' rest' hbr
            simp only [List.length_cons] at hlen ⊢
            omega

theorem splitTmCore_congr : ∀ f1 f2 s, s.length < f1 → s.length < f2 →
    splitTmCore f1 s = splitTmCore f2 s := by
  intro f1
  induction f1 with
  | zero => intro f2 s h _; omega
  | succ g ih =>
    intro f2 s h1 h2
    cases f2 with
    | zero => omega
    | succ g2 =>
      cases hbr : breakTm s with
      | none => simp [splitTmCore, hbr]
      | some p =>
        obtain ⟨tok, rest⟩ := p
        have hlen := breakTm_length s tok rest hbr
        simp only [splitTmCore, hbr]
        rw [ih g2 rest (by omega) (by omega)]

theorem pySplit_none (s : List Char) (h : breakTm s = none) : pySplit s = [s] := by
  unfold pySplit
  simp [splitTmCore, h]

theorem splitTmCore_succ_some (f : Nat) (s tok rest : List Char)
    (h : breakTm s = some (tok, rest)) :
    splitTmCore (f + 1) s = tok :: splitTmCore f rest := by
  simp [splitTmCore, h]

theorem pySplit_some (s tok rest : List Char) (h : breakTm s = some (tok, rest)) :
    pySplit s = tok :: pySplit rest := by
  have hlen := breakTm_length s tok rest h
  unfold pySplit
  rw [splitTmCore_succ_some s.length s tok rest h]
  rw [splitTmCore_congr s.length (rest.length + 1) rest (by omega) (by omega)]

/-! ### Digit runs contain no delimiter -/

theorem startsTm_of_digit (c : Char) (X : List Char) (h : c.isDigit = true) :
    startsTm (c :: X) = false :=
  startsTm_false_of_not_tilde c X (isDigit_ne c '~' h (by decide))

theorem containsTm_digits_append (L : List Char) (hL : ∀ c ∈ L, c.isDigit = true) :
    containsTm (L ++ ['~', 'm']) = false := by
  induction L with
  | nil => decide
  | cons c t ih =>
    rw [List.cons_append, containsTm_cons, Bool.or_eq_false_iff]
    refine ⟨startsTm_of_digit c _ (hL c (List.mem_cons_self c t)), ?_⟩
    exact ih (fun x hx => hL x (List.mem_cons_of_mem c hx))

theorem containsTm_digits (L : List Char) (hL : ∀ c ∈ L, c.isDigit = true) :
    containsTm L = false := by
  induction L with
  | nil => rfl
  | cons c t ih =>
    rw [containsTm_cons, Bool.or_eq_false_iff]
    refine ⟨startsTm_of_digit c _ (hL c (List.mem_cons_self c t)), ?_⟩
    exact ih (fun x hx => hL x (List.mem_cons_of_mem c hx))

/-! ### Decoding a wire frame -/

theorem decodeEnvelopes_frame (L P : List Char) (hL : ∀ c ∈ L, c.isDigit = true)
    (hP : containsTm P = false) :
    decodeEnvelopes ('~' :: 'm' :: '~' :: (L ++ ('~' :: 'm' :: '~' :: P))) =
      (loads P).toList := by
  have h1 : pySplit ('~' :: 'm' :: '~' :: (L ++ ('~' :: 'm' :: '~' :: P)))
      = [] :: pySplit (L ++ ('~' :: 'm' :: '~' :: P)) := pySplit_some _ _ _ (breakTm_tm _)
  have h2 : pySplit (L ++ ('~' :: 'm' :: '~' :: P)) = L :: pySplit P :=
    pySplit_some _ _ _ (breakTm_through L P (containsTm_digits_append L hL))
  have h3 : pySplit P = [P] := pySplit_none P (breakTm_no_sep P hP)
  have hc1 : startsHsep ('~' :: 'm' :: '~' :: (L ++ ('~' :: 'm' :: '~' :: P))) = false := rfl
  have hc2 : ('~' :: 'm' :: '~' :: (L ++ ('~' :: 'm' :: '~' :: P))).all Char.isWhitespace
      = false := rfl
  unfold decodeEnvelopes
  cases hl : loads P with
  | some d => simp [hc1, hc2, h1, h2, h3, hl]
  | none => simp [hc1, hc2, h1, h2, h3, hl]

theorem decodeEnvelopes_frame_more (L P Y : List Char) (hL : ∀ c ∈ L, c.isDigit = true)
    (hP : containsTm (P ++ ['~', 'm']) = false) :
    decodeEnvelopes
        ('~' :: 'm' :: '~' :: (L ++ ('~' :: 'm' :: '~' :: (P ++ ('~' :: 'm' :: '~' :: Y))))) =
      (loads P).toList := by
  have h1 : pySplit ('~' :: 'm' :: '~' :: (L ++ ('~' :: 'm' :: '~' :: (P ++ ('~' :: 'm' :: '~' :: Y)))))
      = [] :: pySplit (L ++ ('~' :: 'm' :: '~' :: (P ++ ('~' :: 'm' :: '~' :: Y)))) :=
    pySplit_some _ _ _ (breakTm_tm _)
  have h2 : pySplit (L ++ ('~' :: 'm' :: '~' :: (P ++ ('~' :: 'm' :: '~' :: Y))))
      = L :: pySplit (P ++ ('~' :: 'm' :: '~' :: Y)) :=
    pySplit_some _ _ _ (breakTm_through L _ (containsTm_digits_append L hL))
  have h3 : pySplit (P ++ ('~' :: 'm' :: '~' :: Y)) = P :: pySplit Y :=
    pySplit_some _ _ _ (breakTm_through P Y hP)
  have hc1 : startsHsep
      ('~' :: 'm' :: '~' :: (L ++ ('~' :: 'm' :: '~' :: (P ++ ('~' :: 'm' :: '~' :: Y)))))
      = false := rfl
  have hc2 : ('~' :: 'm' :: '~' :: (L ++ ('~' :: 'm' :: '~' :: (P ++ ('~' :: 'm' :: '~' :: Y))))).all
      Char.isWhitespace = false := rfl
  have hlen : ¬ ((pySplit Y).length + 1 + 1 + 1 < 3) := by omega
  unfold decodeEnvelopes
  cases hl : loads P with
  | some d => simp [hc1, hc2, h1, h2, h3, hl, hlen]
  | none => simp [hc1, hc2, h1, h2, h3, hl, hlen]

/-- Decoding the encoder's own output when the serialised payload is free
of the delimiter substring: exactly the one encoded envelope comes back. -/
theorem decode_wrap_eq (f : String) (params : JsonList)
    (h : containsTm (dumpsJ (envelopeJson f params)) = false) :
    decodeEnvelopes (wrap_message f params) = [envelopeJson f params] := by
  unfold wrap_message frameFor
  rw [decodeEnvelopes_frame _ _ (natChars_digits _) h, loads_dumps]
  rfl

/-! ### Run-loop trace lemmas -/

theorem on_open_searched (c : Client) (so : SearchOutcome) : (on_open c so).searched = true := by
  unfold on_open
  cases hs : search_symbol so <;> simp [hs]

theorem runTraceAux_length (c : Client) :
    ∀ (script : List AttemptEnv) (b : Nat), (runTraceAux c b script).length = script.length := by
  intro script
  induction script with
  | nil => intro b; rfl
  | cons e rest ih =>
    intro b
    cases e <;> simp [runTraceAux, ih]

theorem runTraceAux_session (c : Client) :
    ∀ (script : List AttemptEnv) (b : Nat) (r : AttemptRecord),
      r ∈ runTraceAux c b script → r.session_id = c.session_id := by
  intro script
  induction script with
  | nil => intro b r h; simp [runTraceAux] at h
  | cons e rest ih =>
    intro b r h
    cases e with
    | connectError =>
      simp only [runTraceAux, List.mem_cons] at h
      rcases h with h | h
      · rw [h]
      · exact ih _ r h
    | opens so =>
      simp only [runTraceAux, List.mem_cons] at h
      rcases h with h | h
      · rw [h]
      · exact ih _ r h

theorem runTraceAux_searched (c : Client) :
    ∀ (script : List AttemptEnv) (b : Nat),
      ((runTraceAux c b script).filter (fun r => r.searched)).length =
        (script.filter (fun e => isOpens e)).length := by
  intro script
  induction script with
  | nil => intro b; rfl
  | cons e rest ih =>
    intro b
    cases e with
    | connectError => simp [runTraceAux, List.filter_cons, isOpens, ih]
    | opens so => simp [runTraceAux, List.filter_cons, isOpens, on_open_searched, ih]

theorem min_backoff_shift (b k : Nat) :
    min (min (b * 2) 300 * 2 ^ k) 300 = min (b * 2 ^ (k + 1)) 300 := by
  rcases Nat.le_total (b * 2) 300 with h | h
  · rw [Nat.min_eq_left h]
    rw [show b * 2 * 2 ^ k = b * 2 ^ (k + 1) by ring]
  · rw [Nat.min_eq_right h]
    have h1 : (300 : Nat) ≤ 300 * 2 ^ k :=
      Nat.le_mul_of_pos_right _ (Nat.pos_pow_of_pos k (by omega))
    have h2 : (300 : Nat) ≤ b * 2 ^ (k + 1) := by
      calc (300 : Nat) ≤ b * 2 := h
        _ ≤ b * 2 ^ (k + 1) := by
            apply Nat.mul_le_mul_left
            have : 2 * 1 ≤ 2 * 2 ^ k := by
              have := Nat.pos_pow_of_pos k (show 0 < 2 by omega)
              omega
            rw [pow_succ]
            omega
    rw [Nat.min_eq_right h1, Nat.min_eq_right h2]

theorem runTraceAux_sleep (c : Client) :
    ∀ (script : List AttemptEnv) (b k : Nat), b ≤ 300 → k < script.length →
      ((runTraceAux c b script).getD k noRecord).sleep = min (b * 2 ^ k) 300 := by
  intro script
  induction script with
  | nil => intro b k hb hk; simp at hk
  | cons e rest ih =>
    intro b k hb hk
    cases k with
    | zero =>
      have hmin : min (b * 2 ^ 0) 300 = b := by
        rw [pow_zero, Nat.mul_one, Nat.min_eq_left hb]
      cases e <;> simp [runTraceAux, List.getD_cons_zero, hmin] <;> omega
    | succ k2 =>
      have hb2 : min (b * 2) BACKOFF_MAX ≤ 300 := by
        unfold BACKOFF_MAX
        omega
      have hk2 : k2 < rest.length := by
        simp only [List.length_cons] at hk
        omega
      have hstep : ((runTraceAux c (min (b * 2) BACKOFF_MAX) rest).getD k2 noRecord).sleep =
          min (min (b * 2) BACKOFF_MAX * 2 ^ k2) 300 :=
        ih (min (b * 2) BACKOFF_MAX) k2 hb2 hk2
      cases e <;>
        (simp only [runTraceAux, List.getD_cons_succ]
         rw [hstep]
         unfold BACKOFF_MAX
         exact min_backoff_shift b k2)

/-! ### Concatenated frames decode to the first payload only -/

theorem startsTm_append (l b : List Char) (h : startsTm l = true) : startsTm (l ++ b) = true := by
  cases l with
  | nil => exact absurd h (by simp [startsTm])
  | cons c1 t =>
    cases t with
    | nil => exact absurd h (by simp [startsTm])
    | cons c2 t2 =>
      cases t2 with
      | nil => exact absurd h (by simp [startsTm])
      | cons c3 t3 => exact h

theorem containsTm_append_mono (a b : List Char) (h : containsTm a = true) :
    containsTm (a ++ b) = true := by
  induction a with
  | nil => exact absurd h (by simp [containsTm])
  | cons c t ih =>
    rw [containsTm_cons, Bool.or_eq_true] at h
    rw [List.cons_append, containsTm_cons, Bool.or_eq_true]
    rcases h with h | h
    · exact Or.inl (startsTm_append (c :: t) b h)
    · exact Or.inr (ih h)

theorem containsTm_of_append_false (a b : List Char) (h : containsTm (a ++ b) = false) :
    containsTm a = false := by
  cases hct : containsTm a with
  | false => rfl
  | true =>
    rw [containsTm_append_mono a b hct] at h
    exact Bool.noConfusion h

theorem concatFrames_cons (p : List Char) (ps : List (List Char)) :
    concatFrames (p :: ps) = frameFor p ++ concatFrames ps := by
  simp [concatFrames]

/-- Decoding a transport message that is the concatenation of one or more
frames: only the first frame's payload is decoded; the rest are dropped. -/
theorem decode_concat (p : List Char) (ps : List (List Char))
    (h : ∀ q ∈ p :: ps, containsTm (q ++ ['~', 'm']) = false) :
    decodeEnvelopes (concatFrames (p :: ps)) = (loads p).toList := by
  have hp := h p (List.mem_cons_self p ps)
  cases ps with
  | nil =>
    have hshape : concatFrames [p] = '~' :: 'm' :: '~' ::
        (natChars p.length ++ ('~' :: 'm' :: '~' :: p)) := by
      simp [concatFrames, frameFor]
    rw [hshape]
    exact decodeEnvelopes_frame _ _ (natChars_digits _) (containsTm_of_append_false p _ hp)
  | cons q ps' =>
    have hshape : concatFrames (p :: q :: ps') = '~' :: 'm' :: '~' ::
        (natChars p.length ++ ('~' :: 'm' :: '~' ::
          (p ++ ('~' :: 'm' :: '~' ::
            (natChars q.length ++ ('~' :: 'm' :: '~' :: (q ++ concatFrames ps'))))))) := by
      rw [concatFrames_cons, concatFrames_cons]
      simp [frameFor]
    rw [hshape]
    exact decodeEnvelopes_frame_more _ _ _ (natChars_digits _) hp

/-! ### The quote interpreter on specific envelope shapes -/

theorem interpretEnvelope_not_obj (d : Json) (h : ∀ kvs, d ≠ .obj kvs) :
    interpretEnvelope d = { sent := [], event := none, err := some .attributeError } := by
  cases d with
  | obj kvs => exact absurd rfl (h kvs)
  | null => rfl
  | bool b => rfl
  | num n => rfl
  | str s => rfl
  | arr xs => rfl

theorem interpretEnvelope_not_qsd (kvs : JsonObj) (h : isQsd (olookup kvs "m") = false) :
    interpretEnvelope (.obj kvs) = { sent := [], event := none, err := none } := by
  unfold interpretEnvelope
  simp [h]

theorem interpretEnvelope_missing_p (kvs : JsonObj)
    (hm : isQsd (olookup kvs "m") = true) (hp : olookup kvs "p" = none) :
    interpretEnvelope (.obj kvs) = { sent := [], event := none, err := some .keyError } := by
  have h1 : pySubscriptStr (Json.obj kvs) "p" = .error .keyError := by
    simp [pySubscriptStr, hp]
  have hq : qsdExtract (.obj kvs) = .error .keyError := by
    unfold qsdExtract
    simp only [h1]
  unfold interpretEnvelope
  simp only [hm, if_true]
  rw [hq]

theorem interpretEnvelope_qsd_shape (kvs p1kvs vkvs : JsonObj) (sid s lp : Json)
    (tlP : JsonList)
    (hm : isQsd (olookup kvs "m") = true)
    (hp : olookup kvs "p" = some (.arr (.cons sid (.cons (.obj p1kvs) tlP))))
    (hn : olookup p1kvs "n" = some s)
    (hv : olookup p1kvs "v" = some (.obj vkvs))
    (hlp : olookup vkvs "lp" = some lp) :
    interpretEnvelope (.obj kvs) = { sent := [], event := some (s, lp), err := none } := by
  have h1 : pySubscriptStr (Json.obj kvs) "p"
      = .ok (.arr (.cons sid (.cons (.obj p1kvs) tlP))) := by
    simp [pySubscriptStr, hp]
  have h2 : pySubscriptNat (.arr (.cons sid (.cons (.obj p1kvs) tlP))) 1
      = .ok (.obj p1kvs) := by
    simp [pySubscriptNat, jlGet]
  have h3 : pySubscriptStr (Json.obj p1kvs) "n" = .ok s := by
    simp [pySubscriptStr, hn]
  have h4 : pySubscriptStr (Json.obj p1kvs) "v" = .ok (.obj vkvs) := by
    simp [pySubscriptStr, hv]
  have h5 : pySubscriptStr (Json.obj vkvs) "lp" = .ok lp := by
    simp [pySubscriptStr, hlp]
  have hq : qsdExtract (.obj kvs) = .ok (s, lp) := by
    unfold qsdExtract
    simp only [h1, h2, h3, h4, h5]
  unfold interpretEnvelope
  simp only [hm, if_true]
  rw [hq]

theorem interpretEnvelope_event_shape (d : Json) (s lp : Json)
    (h : (interpretEnvelope d).event = some (s, lp)) :
    ∃ kvs, d = .obj kvs ∧ isQsd (olookup kvs "m") = true ∧
      qsdExtract d = .ok (s, lp) := by
  cases d with
  | obj kvs =>
    refine ⟨kvs, rfl, ?_⟩
    unfold interpretEnvelope at h
    by_cases hm : isQsd (olookup kvs "m") = true
    · refine ⟨hm, ?_⟩
      simp only [hm, if_true] at h
      cases hq : qsdExtract (.obj kvs) with
      | ok sp =>
        rw [hq] at h
        have h' : some sp = some (s, lp) := h
        rw [Option.some.inj h']
      | error e =>
        rw [hq] at h
        simp at h
    · rw [Bool.not_eq_true] at hm
      simp only [hm] at h
      simp at h
  | null => simp [interpretEnvelope] at h
  | bool b => simp [interpretEnvelope] at h
  | num n => simp [interpretEnvelope] at h
  | str sx => simp [interpretEnvelope] at h
  | arr xs => simp [interpretEnvelope] at h

/-! ### Remaining helper lemmas -/

theorem loads_natChars (n : Nat) : loads (natChars n) = some (.num (n : Int)) := by
  have h1 : dumpsJ (.num (n : Int)) = natChars n := by
    simp only [dumpsJ]
    unfold intChars
    rw [if_neg (by omega), Int.toNat_natCast]
  rw [← h1, loads_dumps]

theorem interpretEnvelope_sent (d : Json) : (interpretEnvelope d).sent = [] := by
  cases d with
  | obj kvs =>
    unfold interpretEnvelope
    by_cases hm : isQsd (olookup kvs "m") = true
    · simp only [hm, if_true]
      cases hq : qsdExtract (.obj kvs) <;> simp [hq]
    · rw [Bool.not_eq_true] at hm
      simp [hm]
  | null => rfl
  | bool b => rfl
  | num n => rfl
  | str s => rfl
  | arr xs => rfl

/-! ### Claim C1 -/

/-- C1 counterexample: the claim fails as universally stated.  For the
method string `"~m~x"` the compact serialisation contains the frame
delimiter, the decoder's split misfires, and decoding the encoder's
output yields zero envelopes, not one. -/
theorem c1_counterexample :
    decodeEnvelopes (wrap_message "~m~x" JsonList.nil) = [] ∧
    decodeEnvelopes (wrap_message "~m~x" JsonList.nil) ≠ [envelopeJson "~m~x" JsonList.nil] := by
  have hm : ("m" : String).data = ['m'] := rfl
  have hx : ("~m~x" : String).data = ['~', 'm', '~', 'x'] := rfl
  have hp : ("p" : String).data = ['p'] := rfl
  have hpay : dumpsJ (envelopeJson "~m~x" JsonList.nil) =
      ['{', '"', 'm', '"', ':', '"', '~', 'm', '~', 'x', '"', ',', '"', 'p', '"', ':',
       '[', ']', '}'] := by
    simp +decide [envelopeJson, dumpsJ, dumpsMember, dumpsMembers, dumpsElems, escapeChars,
      escChar, hm, hx, hp]
  have hw : wrap_message "~m~x" JsonList.nil =
      ['~', 'm', '~', '1', '9', '~', 'm', '~', '{', '"', 'm', '"', ':', '"', '~', 'm', '~',
       'x', '"', ',', '"', 'p', '"', ':', '[', ']', '}'] := by
    unfold wrap_message frameFor
    rw [hpay]
    rfl
  rw [hw]
  refine ⟨rfl, ?_⟩
  rw [show decodeEnvelopes
      ['~', 'm', '~', '1', '9', '~', 'm', '~', '{', '"', 'm', '"', ':', '"', '~', 'm', '~',
       'x', '"', ',', '"', 'p', '"', ':', '[', ']', '}'] = ([] : List Json) from rfl]
  simp

/-- C1 (amended): decoding the encoder's output yields exactly one
envelope `{m: method, p: params}` whenever the compact serialisation of
the envelope does not contain the delimiter substring `~m~`; when it
does, the decoder's split-based framing misparses the frame (the
counterexample shows zero envelopes). -/
theorem c1_roundtrip_amended (func : String) (params : JsonList)
    (h : containsTm (dumpsJ (envelopeJson func params)) = false) :
    decodeEnvelopes (wrap_message func params) = [envelopeJson func params] :=
  decode_wrap_eq func params h

/-- C1 witness: the amended round trip at the concrete method `"x"` with
an empty parameter list. -/
theorem c1_roundtrip_amended_witness :
    containsTm (dumpsJ (envelopeJson "x" JsonList.nil)) = false ∧
    decodeEnvelopes (wrap_message "x" JsonList.nil) = [envelopeJson "x" JsonList.nil] := by
  have hm : ("m" : String).data = ['m'] := rfl
  have hx : ("x" : String).data = ['x'] := rfl
  have hp : ("p" : String).data = ['p'] := rfl
  have hpay : dumpsJ (envelopeJson "x" JsonList.nil) =
      ['{', '"', 'm', '"', ':', '"', 'x', '"', ',', '"', 'p', '"', ':', '[', ']', '}'] := by
    simp +decide [envelopeJson, dumpsJ, dumpsMember, dumpsMembers, dumpsElems, escapeChars,
      escChar, hm, hx, hp]
  have hcont : containsTm (dumpsJ (envelopeJson "x" JsonList.nil)) = false := by
    rw [hpay]
    decide
  exact ⟨hcont, c1_roundtrip_amended "x" JsonList.nil hcont⟩

/-! ### Claim C2 -/

/-- C2 counterexample: the claim fails in both directions.  A `qsd`
envelope with no `p` key raises a KeyError instead of being silently
skipped, and a `qsd` envelope whose `v.lp` is the non-numeric string
`"notanumber"` still emits a price event (the code never checks that the
price is numeric). -/
theorem c2_counterexample :
    (interpretEnvelope (.obj (.cons "m" (.str "qsd") .nil))).err = some PyErr.keyError ∧
    (interpretEnvelope (.obj (.cons "m" (.str "qsd") .nil))).event = none ∧
    (interpretEnvelope (.obj (.cons "m" (.str "qsd")
        (.cons "p" (.arr (.cons (.str "sid") (.cons (.obj (.cons "n" (.str "SYM")
          (.cons "v" (.obj (.cons "lp" (.str "notanumber") .nil)) .nil))) .nil)))
        .nil)))).event = some (.str "SYM", .str "notanumber") :=
  ⟨rfl, rfl, rfl⟩

/-- C2 (amended): the interpreter emits a PriceEvent exactly when the
method field equals `"qsd"` and the subscript chain
`p[1]["n"]`/`p[1]["v"]["lp"]` succeeds — with no numeric check on the
price; an object envelope whose method is not `"qsd"` yields no event
and no error; but a `qsd` envelope with `p` missing raises KeyError, and
a non-object envelope raises AttributeError; the handler never sends. -/
theorem c2_interpret_amended (d : Json) :
    (∀ kvs, d = .obj kvs → isQsd (olookup kvs "m") = false →
      interpretEnvelope d = { sent := [], event := none, err := none }) ∧
    ((∀ kvs, d ≠ .obj kvs) →
      interpretEnvelope d = { sent := [], event := none, err := some .attributeError }) ∧
    (∀ kvs, d = .obj kvs → isQsd (olookup kvs "m") = true → olookup kvs "p" = none →
      interpretEnvelope d = { sent := [], event := none, err := some .keyError }) ∧
    (∀ kvs p1kvs vkvs sid s lp tlP, d = .obj kvs →
      isQsd (olookup kvs "m") = true →
      olookup kvs "p" = some (.arr (.cons sid (.cons (.obj p1kvs) tlP))) →
      olookup p1kvs "n" = some s →
      olookup p1kvs "v" = some (.obj vkvs) →
      olookup vkvs "lp" = some lp →
      interpretEnvelope d = { sent := [], event := some (s, lp), err := none }) ∧
    (∀ s lp, (interpretEnvelope d).event = some (s, lp) →
      ∃ kvs, d = .obj kvs ∧ isQsd (olookup kvs "m") = true ∧ qsdExtract d = .ok (s, lp)) ∧
    (interpretEnvelope d).sent = [] := by
  refine ⟨?_, ?_, ?_, ?_, ?_, interpretEnvelope_sent d⟩
  · intro kvs hd hm
    rw [hd]
    exact interpretEnvelope_not_qsd kvs hm
  · intro h
    exact interpretEnvelope_not_obj d h
  · intro kvs hd hm hp
    rw [hd]
    exact interpretEnvelope_missing_p kvs hm hp
  · intro kvs p1kvs vkvs sid s lp tlP hd hm hp hn hv hlp
    rw [hd]
    exact interpretEnvelope_qsd_shape kvs p1kvs vkvs sid s lp tlP hm hp hn hv hlp
  · intro s lp h
    exact interpretEnvelope_event_shape d s lp h

/-- C2 witness: the amended characterisation applied to a concrete
well-shaped `qsd` envelope, emitting its event. -/
theorem c2_interpret_amended_witness :
    interpretEnvelope (.obj (.cons "m" (.str "qsd")
        (.cons "p" (.arr (.cons (.str "sid") (.cons (.obj (.cons "n" (.str "S")
          (.cons "v" (.obj (.cons "lp" (.num 5) .nil)) .nil))) .nil))) .nil)))
      = { sent := [], event := some (.str "S", .num 5), err := none } :=
  (c2_interpret_amended _).2.2.2.1 _ _ _ _ _ _ _ rfl rfl rfl rfl rfl rfl

/-! ### Claim C3 -/

/-- C3 counterexample: a transport message holding two validly encoded
frames decodes to exactly one output (the first envelope), not two. -/
theorem c3_counterexample :
    decodeEnvelopes (concatFrames [dumpsJ (envelopeJson "a" JsonList.nil),
        dumpsJ (envelopeJson "b" JsonList.nil)]) = [envelopeJson "a" JsonList.nil] ∧
    (decodeEnvelopes (concatFrames [dumpsJ (envelopeJson "a" JsonList.nil),
        dumpsJ (envelopeJson "b" JsonList.nil)])).length = 1 := by
  have hm : ("m" : String).data = ['m'] := rfl
  have hp : ("p" : String).data = ['p'] := rfl
  have hda : ("a" : String).data = ['a'] := rfl
  have hdb : ("b" : String).data = ['b'] := rfl
  have hpa : dumpsJ (envelopeJson "a" JsonList.nil) =
      ['{', '"', 'm', '"', ':', '"', 'a', '"', ',', '"', 'p', '"', ':', '[', ']', '}'] := by
    simp +decide [envelopeJson, dumpsJ, dumpsMember, dumpsMembers, dumpsElems, escapeChars,
      escChar, hm, hda, hp]
  have hpb : dumpsJ (envelopeJson "b" JsonList.nil) =
      ['{', '"', 'm', '"', ':', '"', 'b', '"', ',', '"', 'p', '"', ':', '[', ']', '}'] := by
    simp +decide [envelopeJson, dumpsJ, dumpsMember, dumpsMembers, dumpsElems, escapeChars,
      escChar, hm, hdb, hp]
  rw [hpa, hpb]
  exact ⟨rfl, rfl⟩

/-- C3 (amended): decoding the concatenation of N ≥ 1 validly encoded
frames (payloads free of the delimiter, also at the junction) yields at
most ONE output — the first frame's payload when it parses as JSON — and
silently drops the remaining N−1 frames. -/
theorem c3_first_frame_amended (p : List Char) (ps : List (List Char))
    (h : ∀ q ∈ p :: ps, containsTm (q ++ ['~', 'm']) = false) :
    decodeEnvelopes (concatFrames (p :: ps)) = (loads p).toList :=
  decode_concat p ps h

/-- C3 witness: two concatenated frames with payloads `null` and `42`;
decoding returns only the first payload's value. -/
theorem c3_first_frame_amended_witness :
    (∀ q ∈ [['n', 'u', 'l', 'l'], ['4', '2']], containsTm (q ++ ['~', 'm']) = false) ∧
    decodeEnvelopes (concatFrames [['n', 'u', 'l', 'l'], ['4', '2']]) = [Json.null] := by
  refine ⟨by decide, ?_⟩
  rw [c3_first_frame_amended ['n', 'u', 'l', 'l'] [['4', '2']] (by decide)]
  rfl

/-! ### Claim C4 -/

/-- C4 counterexample: on the spec's keep-alive frame `~m~2~m~42` the
handler sends no outbound frame at all (the claim demands exactly one
echo), emits no event, and in fact raises AttributeError because the
payload parses as the JSON number 42 and `42 .get("m")` is invalid. -/
theorem c4_counterexample :
    (on_message ("~m~2~m~42".data)).sent = [] ∧
    (on_message ("~m~2~m~42".data)).event = none ∧
    (on_message ("~m~2~m~42".data)).err = some PyErr.attributeError :=
  ⟨rfl, rfl, rfl⟩

/-- C4 (amended): keep-alives are never echoed.  A message starting with
`~h~` is silently discarded with no outbound frame and no event; a
framed digit-only payload is parsed as a JSON number, forwarded to the
quote block, and raises AttributeError — still with no outbound frame
and no event. -/
theorem c4_keepalive_amended :
    (∀ t : List Char,
      on_message ('~' :: 'h' :: '~' :: t) = { sent := [], event := none, err := none }) ∧
    (∀ n : Nat,
      on_message (frameFor (natChars n)) =
        { sent := [], event := none, err := some .attributeError }) := by
  constructor
  · intro t
    rfl
  · intro n
    have hdec : decodeEnvelopes (frameFor (natChars n)) = [Json.num (n : Int)] := by
      unfold frameFor
      rw [decodeEnvelopes_frame _ _ (natChars_digits _)
        (containsTm_digits _ (natChars_digits n))]
      rw [loads_natChars]
      rfl
    unfold on_message
    rw [hdec]
    rfl

/-! ### Claim C5 -/

/-- C5 counterexample: over two consecutive connections the client uses
the SAME session identifier — `__init__` generates it once and `run`
never regenerates it, so the id used on the reconnect is not different
from the prior one. -/
theorem c5_counterexample :
    (runTrace (mkClient "BTCUSD" "crypto" (fun _ => 'a'))
      [.opens (.results [⟨"BINANCE", "BTCUSDT"⟩]),
       .opens (.results [⟨"BINANCE", "BTCUSDT"⟩])]).length = 2 ∧
    ((runTrace (mkClient "BTCUSD" "crypto" (fun _ => 'a'))
      [.opens (.results [⟨"BINANCE", "BTCUSDT"⟩]),
       .opens (.results [⟨"BINANCE", "BTCUSDT"⟩])]).getD 0 noRecord).session_id =
    ((runTrace (mkClient "BTCUSD" "crypto" (fun _ => 'a'))
      [.opens (.results [⟨"BINANCE", "BTCUSDT"⟩]),
       .opens (.results [⟨"BINANCE", "BTCUSDT"⟩])]).getD 1 noRecord).session_id :=
  ⟨rfl, rfl⟩

/-- C5 (amended): the session identifier is generated once at client
construction and reused unchanged on every connection attempt; it is
never regenerated across reconnects. -/
theorem c5_session_amended (c : Client) (script : List AttemptEnv) (r : AttemptRecord)
    (h : r ∈ runTrace c script) : r.session_id = c.session_id :=
  runTraceAux_session c script 1 r h

/-- C5 witness: the amended claim applied to the single record of a
one-attempt trace. -/
theorem c5_session_amended_witness :
    ((runTrace (mkClient "B" "crypto" (fun _ => 'a')) [AttemptEnv.connectError]).getD 0
      noRecord).session_id = (mkClient "B" "crypto" (fun _ => 'a')).session_id :=
  c5_session_amended (mkClient "B" "crypto" (fun _ => 'a')) [AttemptEnv.connectError] _
    (List.mem_cons_self _ _)

/-! ### Claim C6 -/

/-- C6: the k-th reconnection delay (0-based) is exactly
`min (2 ^ k) BACKOFF_MAX`: it starts at 1 second, doubles after each
attempt, caps at 300 seconds once doubling would exceed the cap, then
holds at 300 forever and never exceeds it. -/
theorem c6_backoff (c : Client) (script : List AttemptEnv) (k : Nat)
    (h : k < (runTrace c script).length) :
    ((runTrace c script).getD k noRecord).sleep = min (2 ^ k) BACKOFF_MAX ∧
    ((runTrace c script).getD k noRecord).sleep ≤ BACKOFF_MAX ∧
    (2 ^ k ≤ BACKOFF_MAX → ((runTrace c script).getD k noRecord).sleep = 2 ^ k) ∧
    (BACKOFF_MAX ≤ 2 ^ k → ((runTrace c script).getD k noRecord).sleep = BACKOFF_MAX) := by
  have hk : k < script.length := by
    unfold runTrace at h
    rw [runTraceAux_length] at h
    exact h
  have hs := runTraceAux_sleep c script 1 k (by omega) hk
  rw [Nat.one_mul] at hs
  unfold runTrace
  unfold BACKOFF_MAX
  refine ⟨hs, ?_, ?_, ?_⟩
  · rw [hs]
    exact Nat.min_le_right _ _
  · intro hle
    rw [hs]
    exact Nat.min_eq_left hle
  · intro hge
    rw [hs]
    exact Nat.min_eq_right hge

/-- C6 witness: on a ten-failure script, the tenth delay (k = 9) is
`min 512 300 = 300`. -/
theorem c6_backoff_witness :
    ((runTrace (mkClient "B" "crypto" (fun _ => 'a'))
        (List.replicate 10 AttemptEnv.connectError)).getD 9 noRecord).sleep =
      min (2 ^ 9) BACKOFF_MAX :=
  (c6_backoff (mkClient "B" "crypto" (fun _ => 'a'))
    (List.replicate 10 AttemptEnv.connectError) 9 (by decide)).1

/-! ### Claim C7 -/

/-- C7 counterexample: a frame whose declared length `1` does not match
its 16-character payload is decoded anyway — one envelope comes out, not
zero: the decoder never reads the length field. -/
theorem c7_counterexample :
    decodeEnvelopes
        ('~' :: 'm' :: '~' :: '1' :: '~' :: 'm' :: '~' ::
          ['{', '"', 'm', '"', ':', '"', 'x', '"', ',', '"', 'p', '"', ':', '[', ']', '}'])
      = [envelopeJson "x" JsonList.nil] ∧
    decodeEnvelopes
        ('~' :: 'm' :: '~' :: '1' :: '~' :: 'm' :: '~' ::
          ['{', '"', 'm', '"', ':', '"', 'x', '"', ',', '"', 'p', '"', ':', '[', ']', '}'])
      ≠ [] := by
  refine ⟨rfl, ?_⟩
  rw [show decodeEnvelopes
      ('~' :: 'm' :: '~' :: '1' :: '~' :: 'm' :: '~' ::
        ['{', '"', 'm', '"', ':', '"', 'x', '"', ',', '"', 'p', '"', ':', '[', ']', '}'])
      = [envelopeJson "x" JsonList.nil] from rfl]
  simp

/-- C7 (amended): the decoder ignores the declared length entirely: for
ANY digit run in the length field — matching or not — the frame is
decoded identically, by parsing the payload; a length mismatch yields
the payload's outputs, not zero, and never raises. -/
theorem c7_length_ignored_amended (L1 L2 P : List Char)
    (h1 : ∀ c ∈ L1, c.isDigit = true) (h2 : ∀ c ∈ L2, c.isDigit = true)
    (hP : containsTm P = false) :
    decodeEnvelopes ('~' :: 'm' :: '~' :: (L1 ++ ('~' :: 'm' :: '~' :: P))) =
      (loads P).toList ∧
    decodeEnvelopes ('~' :: 'm' :: '~' :: (L1 ++ ('~' :: 'm' :: '~' :: P))) =
      decodeEnvelopes ('~' :: 'm' :: '~' :: (L2 ++ ('~' :: 'm' :: '~' :: P))) := by
  refine ⟨decodeEnvelopes_frame L1 P h1 hP, ?_⟩
  rw [decodeEnvelopes_frame L1 P h1 hP, decodeEnvelopes_frame L2 P h2 hP]

/-- C7 witness: declared lengths `1` and `99` around the 4-character
payload `null` decode identically to `[null]`. -/
theorem c7_length_ignored_amended_witness :
    ((∀ c ∈ ['1'], c.isDigit = true) ∧ (∀ c ∈ ['9', '9'], c.isDigit = true) ∧
      containsTm ['n', 'u', 'l', 'l'] = false) ∧
    decodeEnvelopes ('~' :: 'm' :: '~' :: (['1'] ++ ('~' :: 'm' :: '~' :: ['n', 'u', 'l', 'l'])))
      = (loads ['n', 'u', 'l', 'l']).toList := by
  refine ⟨⟨by decide, by decide, by decide⟩, ?_⟩
  exact (c7_length_ignored_amended ['1'] ['9', '9'] ['n', 'u', 'l', 'l']
    (by decide) (by decide) (by decide)).1

/-! ### Claim C8 -/

/-- C8 counterexample: over a trace with two connection openings the
symbol resolver runs twice — once per `on_open` — so it is not invoked
exactly once per process lifetime and nothing is cached. -/
theorem c8_counterexample :
    ((runTrace (mkClient "BTCUSD" "crypto" (fun _ => 'a'))
        [.opens (.results [⟨"BINANCE", "BTCUSDT"⟩]),
         .opens (.results [⟨"BINANCE", "BTCUSDT"⟩])]).filter
      (fun r => r.searched)).length = 2 := rfl

/-- C8 (amended): the symbol resolver is invoked exactly once per
connection opening — on every reconnect that reaches `on_open`, with no
caching: the number of resolver invocations equals the number of opened
attempts in the script. -/
theorem c8_resolver_amended (c : Client) (script : List AttemptEnv) :
    ((runTrace c script).filter (fun r => r.searched)).length =
      (script.filter (fun e => isOpens e)).length :=
  runTraceAux_searched c script 1

/-! ### Claim C9 -/

/-- C9 counterexample: with an empty search result on the first attempt,
the run does not terminate: the failing attempt had already opened the
transport and sent two setup frames, and a second attempt follows and
sends all three frames. -/
theorem c9_counterexample :
    (runTrace (mkClient "NOSUCH" "crypto" (fun _ => 'a'))
        [.opens (.results []), .opens (.results [⟨"BINANCE", "BTCUSDT"⟩])]).length = 2 ∧
    ((runTrace (mkClient "NOSUCH" "crypto" (fun _ => 'a'))
        [.opens (.results []), .opens (.results [⟨"BINANCE", "BTCUSDT"⟩])]).getD 0
      noRecord).err = some PyErr.valueError ∧
    ((runTrace (mkClient "NOSUCH" "crypto" (fun _ => 'a'))
        [.opens (.results []), .opens (.results [⟨"BINANCE", "BTCUSDT"⟩])]).getD 0
      noRecord).sent.length = 2 ∧
    ((runTrace (mkClient "NOSUCH" "crypto" (fun _ => 'a'))
        [.opens (.results []), .opens (.results [⟨"BINANCE", "BTCUSDT"⟩])]).getD 1
      noRecord).sent.length = 3 :=
  ⟨rfl, rfl, rfl, rfl⟩

/-- C9 (amended): symbol resolution runs inside the open callback, after
the transport connection is established and after the two session-setup
frames are already sent; a resolution failure raises ValueError there,
is swallowed by the run loop, and the loop retries every scripted later
attempt — it is neither fatal nor prior to connecting. -/
theorem c9_resolution_amended (c : Client) (rest : List AttemptEnv) :
    (runTrace c (.opens (.results []) :: rest)).length = rest.length + 1 ∧
    ((runTrace c (.opens (.results []) :: rest)).getD 0 noRecord).err =
      some PyErr.valueError ∧
    ((runTrace c (.opens (.results []) :: rest)).getD 0 noRecord).sent =
      [wrap_message "quote_create_session" (.cons (.str c.session_id) .nil),
       wrap_message "quote_set_fields"
         (.cons (.str c.session_id) (.cons (.str "lp") .nil))] := by
  refine ⟨?_, rfl, rfl⟩
  unfold runTrace
  rw [runTraceAux_length]
  rfl

/-! ### Claim C10 -/

/-- C10: whenever the symbol search returns a non-empty result list, the
client subscribes using the first result only — the outcome of `on_open`
does not depend on the remaining results, and the third frame sent is
`quote_add_symbols` for `EXCHANGE:SYMBOL` built by uppercasing the first
result's exchange and symbol fields. -/
theorem c10_first_result (c : Client) (r : SearchResult) (rs rs' : List SearchResult) :
    on_open c (.results (r :: rs)) = on_open c (.results (r :: rs')) ∧
    (on_open c (.results (r :: rs))).sent =
      [wrap_message "quote_create_session" (.cons (.str c.session_id) .nil),
       wrap_message "quote_set_fields"
         (.cons (.str c.session_id) (.cons (.str "lp") .nil)),
       wrap_message "quote_add_symbols"
         (.cons (.str c.session_id)
           (.cons (.str (r.exchange.toUpper ++ ":" ++ r.symbol.toUpper)) .nil))] :=
  ⟨rfl, rfl⟩
